import Mathlib

/-!
Shallow embedding of `src/export_waveforms.py` (`ExportWaveforms.call`) and
proofs about it.

Modelling conventions:
* Python strings are embedded as Lean `String`; the Python primitives used by
  the source (`len`, slicing `s[:n]`, `str.lower`, `str.endswith`) are embedded
  at the character-list level (`pyLen`, `pyTake`, `pyLower`, `pyEndsWith`).
* Python floats (sample values, `deltat`, `tmin`, cutoffs, the rotation angle)
  are embedded as `ℚ`.
* `math.cos(phi)` and `math.sin(phi)` are transcendental; the embedding takes
  the two computed values `cphi` and `sphi` as parameters wherever the source
  uses them.
* The pyrocko filtering primitives `Trace.bandpass`, `Trace.lowpass`,
  `Trace.highpass` are external black boxes (out of scope per the spec); the
  embedding is parameterized by a `FilterFns` record holding one abstract
  sample-transforming function per primitive, applied with exactly the
  arguments the source passes.
* `io.save` is the external save contract; it is a parameter returning
  `Except String Unit` (`Except.error e` models `io.io_common.FileSaveError`
  with message `e`). The batches yielded by `chopper_selected_traces` are a
  parameter `batches : List (List Trace)`.
* In-place mutation of traces is modelled by functional update of a
  `List Trace` indexed by position; the rotation double loop
  `for a in traces_save: for b in traces_save:` is a fold over all index pairs
  in lexicographic order, reading the current list state at each step.
* `rotateAllLog` additionally records, as ghost state, the list of index pairs
  that were actually rotated, in order; the exported trace list is its first
  component.
-/

namespace ExportWaveforms

/-- Python `len(s)` (counts code points, like Lean `List Char` length). -/
def pyLen (s : String) : ℕ := s.data.length

/-- Python `s[:n]`. -/
def pyTake (n : ℕ) (s : String) : String := ⟨s.data.take n⟩

/-- Python `s.lower()` (ASCII range, as used by the source on channel codes). -/
def pyLower (s : String) : String := ⟨s.data.map Char.toLower⟩

/-- Python `s.endswith(suffix)`. -/
def pyEndsWith (s suffix : String) : Bool := suffix.data.isSuffixOf s.data

/-- Contiguous-occurrence check on character lists. -/
def subListOf (pat : List Char) : List Char → Bool
  | [] => pat.isEmpty
  | c :: rest => pat.isPrefixOf (c :: rest) || subListOf pat rest

/-- Python `sub in s` (substring containment). -/
def pyContains (s sub : String) : Bool := subListOf sub.data s.data

/-- The `Format` choice of the snuffling: `['mseed', 'text', 'sac', 'yaff']`. -/
inductive Format where
  | mseed
  | text
  | sac
  | yaff
deriving DecidableEq

/-- The string value of the format choice (`self.format`). -/
def Format.str : Format → String
  | .mseed => "mseed"
  | .text => "text"
  | .sac => "sac"
  | .yaff => "yaff"

/-- A pyrocko trace, restricted to the attributes the source reads or writes:
identifier codes, `deltat` (sample interval), `tmin` (start time) and the
sample array `ydata`. -/
structure Trace where
  network : String
  station : String
  location : String
  channel : String
  deltat : ℚ
  tmin : ℚ
  ydata : List ℚ
deriving DecidableEq

/-- The ambient viewer state read by `call`: `viewer.lowpass`,
`viewer.highpass` (optional cutoffs) and `viewer.rotate` (angle in degrees). -/
structure ViewerContext where
  lowpass : Option ℚ
  highpass : Option ℚ
  rotate : ℚ
deriving DecidableEq

/-- Lines 60-64 of the source: the placeholder template, with the
microsecond start-time placeholder present iff `self.tinc is not None`. -/
def defaultTemplate (tinc : Option ℚ) : String :=
  if tinc.isSome then "trace_%n.%s.%l.%c_%(tmin_us)s" else "trace_%n.%s.%l.%c"

/-- Lines 66-70 of the source: `template + '.dat'` for the text format and
`template + '.' + self.format` otherwise. -/
def defaultOutputFilename (format : Format) (tinc : Option ℚ) : String :=
  if format = Format.text then defaultTemplate tinc ++ ".dat"
  else defaultTemplate tinc ++ "." ++ format.str

/-- One of the four truncation statements of lines 80-87:
`if len(code) > n: set_code(code[:n])`. -/
def truncTo (n : ℕ) (s : String) : String :=
  if pyLen s > n then pyTake n s else s

/-- Lines 79-87 of the source: under the mseed format, truncate the four
identifier codes to lengths 2, 5, 2, 3; under any other format do nothing.
The four Python statements each guard on and assign one distinct field, so
they are embedded as four independent field updates. -/
def normalizeCodes (format : Format) (tr : Trace) : Trace :=
  if format = Format.mseed then
    { tr with
      network := truncTo 2 tr.network
      station := truncTo 5 tr.station
      location := truncTo 2 tr.location
      channel := truncTo 3 tr.channel }
  else tr

/-- Abstract stand-ins for the external pyrocko filtering primitives.
`bandpassFn order corner_hp corner_lp`, `lowpassFn order corner demean`,
`highpassFn order corner demean` each transform the sample array. -/
structure FilterFns where
  bandpassFn : ℕ → ℚ → ℚ → List ℚ → List ℚ
  lowpassFn : ℕ → ℚ → Bool → List ℚ → List ℚ
  highpassFn : ℕ → ℚ → Bool → List ℚ → List ℚ

/-- Lines 90-100 of the source: the filter branch selection performed for one
trace when `self.apply_filter` holds. -/
def applyFilters (F : FilterFns) (viewer : ViewerContext) (tr : Trace) : Trace :=
  match viewer.lowpass, viewer.highpass with
  | some lp, some hp => { tr with ydata := F.bandpassFn 2 hp lp tr.ydata }
  | some lp, none =>
      if lp < (1/2 : ℚ) / tr.deltat then
        { tr with ydata := F.lowpassFn 4 lp false tr.ydata }
      else tr
  | none, some hp =>
      if hp < (1/2 : ℚ) / tr.deltat then
        { tr with ydata := F.highpassFn 4 hp false tr.ydata }
      else tr
  | none, none => tr

/-- Lines 78-103 of the source, for one trace of a batch: code normalization
followed, when `self.apply_filter` is set, by filter application. -/
def conditionTrace (F : FilterFns) (format : Format) (viewer : ViewerContext)
    (applyFilterFlag : Bool) (tr : Trace) : Trace :=
  let tr1 := normalizeCodes format tr
  if applyFilterFlag then applyFilters F viewer tr1 else tr1

/-- Lines 111-120 of the source: the rotation pairing predicate on two traces
`a` and `b` of the working set. -/
def pairPred (a b : Trace) : Bool :=
  a.network == b.network && a.station == b.station && a.location == b.location
    && ((pyEndsWith (pyLower a.channel) "n" && pyEndsWith (pyLower b.channel) "e")
        || (pyEndsWith a.channel "1" && pyEndsWith b.channel "2"))
    && decide (|a.deltat - b.deltat| < a.deltat * (1/1000))
    && decide (|a.tmin - b.tmin| < a.deltat * (1/100))
    && a.ydata.length == b.ydata.length

/-- Line 122 of the source: `aydata = a.get_ydata()*cphi + b.get_ydata()*sphi`
assigned to `a`. -/
def rotatedA (cphi sphi : ℚ) (a b : Trace) : Trace :=
  { a with ydata := List.zipWith (fun x y => x * cphi + y * sphi) a.ydata b.ydata }

/-- Line 123 of the source: `bydata = -a.get_ydata()*sphi + b.get_ydata()*cphi`
assigned to `b`; note it reads the same pre-assignment `a.get_ydata()`. -/
def rotatedB (cphi sphi : ℚ) (a b : Trace) : Trace :=
  { b with ydata := List.zipWith (fun x y => (-x) * sphi + y * cphi) a.ydata b.ydata }

/-- One iteration of the inner rotation loop body (lines 111-125) at index pair
`p`: read the current states of traces `p.1` and `p.2`, and if the pairing
predicate holds, write back both rotated traces and record `p` in the ghost
log. -/
def rotStep (cphi sphi : ℚ) (st : List Trace × List (ℕ × ℕ)) (p : ℕ × ℕ) :
    List Trace × List (ℕ × ℕ) :=
  match st.1[p.1]?, st.1[p.2]? with
  | some a, some b =>
      if pairPred a b then
        ((st.1.set p.1 (rotatedA cphi sphi a b)).set p.2 (rotatedB cphi sphi a b),
          st.2 ++ [p])
      else st
  | _, _ => st

/-- The index pairs visited by `for a in traces_save: for b in traces_save:`,
in lexicographic order. -/
def pairList (n : ℕ) : List (ℕ × ℕ) :=
  (List.range n).flatMap (fun i => (List.range n).map (fun j => (i, j)))

/-- Lines 109-125 of the source: the full double rotation loop over the
working set, together with the ghost log of rotated index pairs. -/
def rotateAllLog (cphi sphi : ℚ) (trs : List Trace) : List Trace × List (ℕ × ℕ) :=
  (pairList trs.length).foldl (rotStep cphi sphi) (trs, [])

/-- The rotated working set (first component of `rotateAllLog`). -/
def rotateAll (cphi sphi : ℚ) (trs : List Trace) : List Trace :=
  (rotateAllLog cphi sphi trs).1

/-- Lines 105-125 of the source: the rotation pass runs exactly when
`viewer.rotate != 0.0 and self.apply_filter`. -/
def rotStage (cphi sphi rotate : ℚ) (applyFilterFlag : Bool) (trs : List Trace) :
    List Trace :=
  if rotate ≠ 0 ∧ applyFilterFlag = true then rotateAll cphi sphi trs else trs

/-- Lines 76-103 of the source: the batch loop. `traces_save` is rebound at the
top of each iteration and holds the conditioned traces of that batch when the
loop ends; `none` models the name being unbound when the chopper yields no
batch. -/
def workingSet (F : FilterFns) (format : Format) (viewer : ViewerContext)
    (applyFilterFlag : Bool) (batches : List (List Trace)) : Option (List Trace) :=
  batches.foldl
    (fun _ trs => some (trs.map (conditionTrace F format viewer applyFilterFlag)))
    none

/-- Observable record of one `call`: the argument of each `io.save` invocation,
in order, and whether the station dump was reached. -/
structure CallLog where
  saveArgs : List (List Trace)
  stationDumpInvoked : Bool
deriving DecidableEq

/-- The Python `NameError` raised when `traces_save` is referenced without
having been bound (chopper yielded zero batches). -/
def unboundTracesSaveError : String := "NameError: traces_save is not defined"

/-- Lines 76-141 of the source: the whole of `ExportWaveforms.call` after the
template dialog. The rotation pass (line 105) and the `io.save` call (line 128)
sit at method level, OUTSIDE the batch loop of line 76, exactly as in the
source, so they see only the last value bound to `traces_save`. On a save
failure `self.fail(str(e))` aborts the call with the original message; the
station dump of lines 138-141 is reached only on success and only when
`self.save_stations` is set. -/
def callModel (F : FilterFns) (cphi sphi : ℚ) (viewer : ViewerContext)
    (format : Format) (applyFilterFlag saveStations : Bool)
    (save : List Trace → String → Format → Bool → Except String Unit)
    (outFilename : String) (batches : List (List Trace)) :
    Except String Unit × CallLog :=
  match workingSet F format viewer applyFilterFlag batches with
  | none => (Except.error unboundTracesSaveError, ⟨[], false⟩)
  | some ts0 =>
      let ts := rotStage cphi sphi viewer.rotate applyFilterFlag ts0
      match save ts outFilename format true with
      | Except.error e => (Except.error e, ⟨[ts], false⟩)
      | Except.ok _ => (Except.ok (), ⟨[ts], saveStations⟩)

/-- Number of rotations in which the trace at index `k` participates, as either
member of the rotated pair. -/
def participation (log : List (ℕ × ℕ)) (k : ℕ) : ℕ :=
  (log.filter (fun p => p.1 == k || p.2 == k)).length

/-! ### General lemmas about the embedded string primitives -/

theorem pyTake_of_le {n : ℕ} {s : String} (h : pyLen s ≤ n) : pyTake n s = s := by
  unfold pyTake
  unfold pyLen at h
  rw [List.take_of_length_le h]

theorem truncTo_eq_pyTake (n : ℕ) (s : String) : truncTo n s = pyTake n s := by
  unfold truncTo
  split
  · rfl
  · next h => exact (pyTake_of_le (Nat.le_of_not_lt h)).symm

theorem pyLen_pyTake (n : ℕ) (s : String) : pyLen (pyTake n s) ≤ n := by
  unfold pyLen pyTake
  simp

theorem truncTo_of_le {n : ℕ} {s : String} (h : pyLen s ≤ n) : truncTo n s = s := by
  rw [truncTo_eq_pyTake, pyTake_of_le h]

theorem suffix_singleton_iff {α : Type} (l : List α) (c : α) :
    [c] <:+ l ↔ l.getLast? = some c := by
  rw [List.getLast?_eq_some_iff]
  constructor
  · rintro ⟨t, rfl⟩
    exact ⟨t, rfl⟩
  · rintro ⟨ys, rfl⟩
    exact ⟨ys, rfl⟩

theorem char_toNat_ofNat_valid (n : ℕ) (h : n.isValidChar) : (Char.ofNat n).toNat = n := by
  unfold Char.ofNat
  rw [dif_pos h]
  rfl

theorem char_toNat_inj {c d : Char} (h : c.toNat = d.toNat) : c = d := by
  have hc := Char.ofNat_toNat c
  rw [h, Char.ofNat_toNat] at hc
  exact hc.symm

theorem toLower_ite (c : Char) :
    c.toLower = if c.toNat ≥ 65 ∧ c.toNat ≤ 90 then Char.ofNat (c.toNat + 32) else c := rfl

/-- `Char.toLower` hits the lower-case letter `lc` exactly on `lc` itself and
its upper-case counterpart `uc`. -/
theorem toLower_eq_iff (uc lc c : Char)
    (h1 : 65 ≤ uc.toNat) (h2 : uc.toNat ≤ 90) (h3 : lc.toNat = uc.toNat + 32) :
    c.toLower = lc ↔ c = uc ∨ c = lc := by
  rw [toLower_ite]
  by_cases hr : c.toNat ≥ 65 ∧ c.toNat ≤ 90
  · rw [if_pos hr]
    constructor
    · intro h
      left
      apply char_toNat_inj
      have hv : (c.toNat + 32).isValidChar := Or.inl (by omega)
      have h4 := congrArg Char.toNat h
      rw [char_toNat_ofNat_valid _ hv] at h4
      omega
    · rintro (rfl | rfl)
      · apply char_toNat_inj
        rw [char_toNat_ofNat_valid _ (Or.inl (by omega))]
        omega
      · omega
  · rw [if_neg hr]
    constructor
    · intro h
      right
      exact h
    · rintro (rfl | rfl)
      · exact absurd ⟨h1, h2⟩ hr
      · rfl

/-- `s.endswith(c)` for a one-character suffix reads the last character. -/
theorem pyEndsWith_single (s : String) (c : Char) :
    pyEndsWith s ⟨[c]⟩ = true ↔ s.data.getLast? = some c := by
  unfold pyEndsWith
  rw [List.isSuffixOf_iff_suffix]
  exact suffix_singleton_iff s.data c

/-- `s.lower().endswith(lc)` is the case-insensitive last-character test. -/
theorem pyLower_endsWith_iff (s : String) (uc lc : Char)
    (h1 : 65 ≤ uc.toNat) (h2 : uc.toNat ≤ 90) (h3 : lc.toNat = uc.toNat + 32) :
    pyEndsWith (pyLower s) ⟨[lc]⟩ = true ↔
      (s.data.getLast? = some uc ∨ s.data.getLast? = some lc) := by
  rw [pyEndsWith_single]
  unfold pyLower
  rw [show (String.mk (s.data.map Char.toLower)).data = s.data.map Char.toLower from rfl]
  rw [List.getLast?_map, Option.map_eq_some']
  constructor
  · rintro ⟨c, hc, hlow⟩
    rcases (toLower_eq_iff uc lc c h1 h2 h3).1 hlow with rfl | rfl
    · exact Or.inl hc
    · exact Or.inr hc
  · rintro (h | h)
    · exact ⟨uc, h, (toLower_eq_iff uc lc uc h1 h2 h3).2 (Or.inl rfl)⟩
    · exact ⟨lc, h, (toLower_eq_iff uc lc lc h1 h2 h3).2 (Or.inr rfl)⟩

/-! ### Claims -/

/-- C2: two traces of one batch are paired for rotation iff they agree on
network, station and location, the channels end in N/n and E/e
(case-insensitive) or in 1 and 2 (case-sensitive), the sample intervals differ
by less than `a.deltat * 0.001`, the start times differ by less than
`a.deltat * 0.01`, and the sample counts are equal. -/
theorem claim_C2_pairing_predicate (a b : Trace) :
    pairPred a b = true ↔
      (a.network = b.network ∧ a.station = b.station ∧ a.location = b.location
        ∧ (((a.channel.data.getLast? = some 'N' ∨ a.channel.data.getLast? = some 'n')
             ∧ (b.channel.data.getLast? = some 'E' ∨ b.channel.data.getLast? = some 'e'))
           ∨ (a.channel.data.getLast? = some '1' ∧ b.channel.data.getLast? = some '2'))
        ∧ |a.deltat - b.deltat| < a.deltat * (1/1000)
        ∧ |a.tmin - b.tmin| < a.deltat * (1/100)
        ∧ a.ydata.length = b.ydata.length) := by
  unfold pairPred
  simp only [Bool.and_eq_true, Bool.or_eq_true, beq_iff_eq, decide_eq_true_eq]
  rw [show ("n" : String) = ⟨['n']⟩ from rfl, show ("e" : String) = ⟨['e']⟩ from rfl,
      show ("1" : String) = ⟨['1']⟩ from rfl, show ("2" : String) = ⟨['2']⟩ from rfl]
  rw [pyLower_endsWith_iff a.channel 'N' 'n' (by decide) (by decide) (by decide),
      pyLower_endsWith_iff b.channel 'E' 'e' (by decide) (by decide) (by decide),
      pyEndsWith_single a.channel '1', pyEndsWith_single b.channel '2']
  tauto

/-- Concrete check of C2: `("XX","AAA","","BHN")` pairs with
`("XX","AAA","","BHE")` at equal sampling, start time and length. -/
theorem claim_C2_witness :
    pairPred ⟨"XX", "AAA", "", "BHN", 1, 0, [1, 2]⟩ ⟨"XX", "AAA", "", "BHE", 1, 0, [3, 4]⟩
      = true :=
  (claim_C2_pairing_predicate _ _).2
    ⟨rfl, rfl, rfl, Or.inl ⟨Or.inl (by decide), Or.inl (by decide)⟩,
      by norm_num, by norm_num, rfl⟩

/-- C9: the default output filename template contains the placeholders `%n`,
`%s`, `%l`, `%c`, includes the microsecond-resolution start-time placeholder
`%(tmin_us)s` exactly when `tinc` is not `None`, and ends with `.dat` for the
text format and `.<format>` for every other format. -/
theorem claim_C9_default_filename (format : Format) (tinc : Option ℚ) :
    pyContains (defaultOutputFilename format tinc) "%n" = true ∧
    pyContains (defaultOutputFilename format tinc) "%s" = true ∧
    pyContains (defaultOutputFilename format tinc) "%l" = true ∧
    pyContains (defaultOutputFilename format tinc) "%c" = true ∧
    pyContains (defaultOutputFilename format tinc) "%(tmin_us)s" = tinc.isSome ∧
    pyEndsWith (defaultOutputFilename format tinc)
      (if format = Format.text then ".dat" else "." ++ format.str) = true := by
  cases format <;> rcases tinc with _ | q <;>
    · refine ⟨?_, ?_, ?_, ?_, ?_, ?_⟩ <;>
        · simp only [defaultOutputFilename, defaultTemplate, Option.isSome_some,
            Option.isSome_none, Format.str]
          decide

/-- C5: channel-code normalization truncates identifiers iff the format is
mseed (network to 2, station to 5, location to 2, channel to 3 characters,
keeping leading characters); identifiers at or under their limit and every
identifier under any other format are unchanged, and the transform is
idempotent. -/
theorem claim_C5_normalization (format : Format) (tr : Trace) :
    ((normalizeCodes Format.mseed tr).network = pyTake 2 tr.network
      ∧ (normalizeCodes Format.mseed tr).station = pyTake 5 tr.station
      ∧ (normalizeCodes Format.mseed tr).location = pyTake 2 tr.location
      ∧ (normalizeCodes Format.mseed tr).channel = pyTake 3 tr.channel)
    ∧ (pyLen (normalizeCodes Format.mseed tr).network ≤ 2
      ∧ pyLen (normalizeCodes Format.mseed tr).station ≤ 5
      ∧ pyLen (normalizeCodes Format.mseed tr).location ≤ 2
      ∧ pyLen (normalizeCodes Format.mseed tr).channel ≤ 3)
    ∧ (pyLen tr.network ≤ 2 → (normalizeCodes Format.mseed tr).network = tr.network)
    ∧ (format ≠ Format.mseed → normalizeCodes format tr = tr)
    ∧ normalizeCodes format (normalizeCodes format tr) = normalizeCodes format tr := by
  have hmseed : ∀ t : Trace, normalizeCodes Format.mseed t =
      { t with
        network := truncTo 2 t.network
        station := truncTo 5 t.station
        location := truncTo 2 t.location
        channel := truncTo 3 t.channel } := by
    intro t
    simp [normalizeCodes]
  refine ⟨?_, ?_, ?_, ?_, ?_⟩
  · rw [hmseed]
    dsimp only
    exact ⟨truncTo_eq_pyTake 2 _, truncTo_eq_pyTake 5 _,
      truncTo_eq_pyTake 2 _, truncTo_eq_pyTake 3 _⟩
  · rw [hmseed]
    dsimp only
    refine ⟨?_, ?_, ?_, ?_⟩ <;> · rw [truncTo_eq_pyTake]; exact pyLen_pyTake _ _
  · intro h
    rw [hmseed]
    dsimp only
    exact truncTo_of_le h
  · intro h
    unfold normalizeCodes
    rw [if_neg h]
  · by_cases h : format = Format.mseed
    · subst h
      rw [hmseed, hmseed]
      dsimp only
      congr 1 <;>
        · exact truncTo_of_le (by rw [truncTo_eq_pyTake]; exact pyLen_pyTake _ _)
    · unfold normalizeCodes
      rw [if_neg h, if_neg h]

/-- Concrete check of C5: a non-mseed format leaves codes untouched, and under
mseed a five-character network is cut to its first two characters. -/
theorem claim_C5_witness :
    normalizeCodes Format.sac ⟨"ABCDE", "STATT", "LL", "BHZ", 1, 0, [1]⟩ =
        ⟨"ABCDE", "STATT", "LL", "BHZ", 1, 0, [1]⟩
      ∧ (normalizeCodes Format.mseed ⟨"ABCDE", "STATT", "LL", "BHZ", 1, 0, [1]⟩).network
        = "AB" := by
  constructor
  · exact (claim_C5_normalization Format.sac _).2.2.2.1 (by decide)
  · rw [(claim_C5_normalization Format.mseed
      ⟨"ABCDE", "STATT", "LL", "BHZ", 1, 0, [1]⟩).1.1]
    decide

/-- C6: with `apply_filter` set, exactly one of four mutually exclusive filter
branches is chosen per trace, in this order: both cutoffs set applies a 2-pole
bandpass from the highpass to the lowpass cutoff with no Nyquist bound check;
only lowpass set considers a 4-pole lowpass; only highpass set considers a
4-pole highpass; neither set leaves the trace untouched. -/
theorem claim_C6_filter_branches (F : FilterFns) (viewer : ViewerContext) (tr : Trace) :
    (∀ lp hp, viewer.lowpass = some lp → viewer.highpass = some hp →
        applyFilters F viewer tr = { tr with ydata := F.bandpassFn 2 hp lp tr.ydata })
    ∧ (∀ lp, viewer.lowpass = some lp → viewer.highpass = none →
        applyFilters F viewer tr =
          if lp < (1/2 : ℚ) / tr.deltat then
            { tr with ydata := F.lowpassFn 4 lp false tr.ydata }
          else tr)
    ∧ (∀ hp, viewer.lowpass = none → viewer.highpass = some hp →
        applyFilters F viewer tr =
          if hp < (1/2 : ℚ) / tr.deltat then
            { tr with ydata := F.highpassFn 4 hp false tr.ydata }
          else tr)
    ∧ (viewer.lowpass = none → viewer.highpass = none →
        applyFilters F viewer tr = tr) := by
  refine ⟨?_, ?_, ?_, ?_⟩
  · intro lp hp h1 h2
    unfold applyFilters
    rw [h1, h2]
  · intro lp h1 h2
    unfold applyFilters
    rw [h1, h2]
  · intro hp h1 h2
    unfold applyFilters
    rw [h1, h2]
  · intro h1 h2
    unfold applyFilters
    rw [h1, h2]

/-- Concrete check of C6: with both cutoffs set, the 2-pole bandpass branch is
chosen, regardless of Nyquist. -/
theorem claim_C6_witness :
    applyFilters ⟨fun _ _ _ ys => 0 :: ys, fun _ _ _ ys => 1 :: ys, fun _ _ _ ys => 2 :: ys⟩
        ⟨some 5, some 1, 0⟩ ⟨"XX", "AAA", "", "BHZ", 1, 0, [7]⟩ =
      ⟨"XX", "AAA", "", "BHZ", 1, 0, [0, 7]⟩ :=
  (claim_C6_filter_branches _ ⟨some 5, some 1, 0⟩ _).1 5 1 rfl rfl

/-- C7: with exactly one cutoff set, the 4-pole filter (with demeaning
disabled) is applied iff that cutoff is strictly below the Nyquist frequency
`0.5 / sample_interval`; at or above Nyquist the samples are left unchanged and
no error is raised. -/
theorem claim_C7_nyquist_gate (F : FilterFns) (viewer : ViewerContext) (tr : Trace) :
    (∀ lp, viewer.lowpass = some lp → viewer.highpass = none →
        (lp < (1/2 : ℚ) / tr.deltat →
          applyFilters F viewer tr = { tr with ydata := F.lowpassFn 4 lp false tr.ydata })
        ∧ (¬ lp < (1/2 : ℚ) / tr.deltat → applyFilters F viewer tr = tr))
    ∧ (∀ hp, viewer.lowpass = none → viewer.highpass = some hp →
        (hp < (1/2 : ℚ) / tr.deltat →
          applyFilters F viewer tr = { tr with ydata := F.highpassFn 4 hp false tr.ydata })
        ∧ (¬ hp < (1/2 : ℚ) / tr.deltat → applyFilters F viewer tr = tr)) := by
  constructor
  · intro lp h1 h2
    unfold applyFilters
    rw [h1, h2]
    dsimp only
    constructor
    · intro hlt
      rw [if_pos hlt]
    · intro hge
      rw [if_neg hge]
  · intro hp h1 h2
    unfold applyFilters
    rw [h1, h2]
    dsimp only
    constructor
    · intro hlt
      rw [if_pos hlt]
    · intro hge
      rw [if_neg hge]

/-- Concrete check of C7 (spec scenario 3): `lowpass_cutoff = 10` with
`sample_interval = 1/10` (Nyquist 5) leaves the samples unchanged. -/
theorem claim_C7_witness :
    applyFilters ⟨fun _ _ _ ys => 0 :: ys, fun _ _ _ ys => 1 :: ys, fun _ _ _ ys => 2 :: ys⟩
        ⟨some 10, none, 0⟩ ⟨"XX", "AAA", "", "BHZ", 1/10, 0, [7]⟩ =
      ⟨"XX", "AAA", "", "BHZ", 1/10, 0, [7]⟩ :=
  ((claim_C7_nyquist_gate _ ⟨some 10, none, 0⟩ _).1 10 rfl rfl).2 (by norm_num)

/-- C3: the rotation pass runs exactly when the rotation angle is nonzero and
`apply_filter` is set, and on a matched pair it writes, sample-wise,
`A' = A*cphi + B*sphi` and `B' = (-A)*sphi + B*cphi`, both computed from the
original pre-rotation sample arrays of the pair before either trace is
updated (`cphi`, `sphi` standing for `cos(phi)`, `sin(phi)` with
`phi = rotate/180*pi`). -/
theorem claim_C3_rotation (cphi sphi rot : ℚ) (af : Bool) (ts : List Trace) :
    (rot ≠ 0 → af = true → rotStage cphi sphi rot af ts = rotateAll cphi sphi ts)
    ∧ (rot = 0 ∨ af = false → rotStage cphi sphi rot af ts = ts)
    ∧ (∀ (trs : List Trace) (log : List (ℕ × ℕ)) (i j : ℕ) (a b : Trace),
        trs[i]? = some a → trs[j]? = some b → pairPred a b = true →
        rotStep cphi sphi (trs, log) (i, j) =
          ((trs.set i
              { a with ydata := List.zipWith (fun x y => x * cphi + y * sphi) a.ydata b.ydata }).set j
              { b with ydata := List.zipWith (fun x y => (-x) * sphi + y * cphi) a.ydata b.ydata },
            log ++ [(i, j)])) := by
  refine ⟨?_, ?_, ?_⟩
  · intro h1 h2
    unfold rotStage
    rw [if_pos ⟨h1, h2⟩]
  · intro h
    unfold rotStage
    rw [if_neg]
    rcases h with h | h
    · exact fun hc => hc.1 h
    · exact fun hc => by rw [h] at hc; exact Bool.false_ne_true hc.2
  · intro trs log i j a b ha hb hp
    unfold rotStep
    rw [show ((trs, log) : List Trace × List (ℕ × ℕ)).1 = trs from rfl]
    rw [show ((i, j) : ℕ × ℕ).1 = i from rfl, show ((i, j) : ℕ × ℕ).2 = j from rfl]
    rw [ha, hb]
    dsimp only
    rw [if_pos hp]
    rfl

/-- Concrete check of C3: a zero rotation angle leaves the working set
untouched even with `apply_filter` set, and a matched N/E pair at angle with
`cphi = 0`, `sphi = 1` swaps the sample arrays up to the sign pattern of the
rotation formula. -/
theorem claim_C3_witness :
    rotStage 0 1 0 true [⟨"XX", "AAA", "", "BHN", 1, 0, [1]⟩]
        = [⟨"XX", "AAA", "", "BHN", 1, 0, [1]⟩]
      ∧ rotStep 0 1 ([⟨"XX", "AAA", "", "BHN", 1, 0, [5]⟩,
            ⟨"XX", "AAA", "", "BHE", 1, 0, [7]⟩], []) (0, 1) =
          ([⟨"XX", "AAA", "", "BHN", 1, 0, [5 * 0 + 7 * 1]⟩,
            ⟨"XX", "AAA", "", "BHE", 1, 0, [(-5) * 1 + 7 * 0]⟩], [(0, 1)]) := by
  constructor
  · exact (claim_C3_rotation 0 1 0 true _).2.1 (Or.inl rfl)
  · rw [(claim_C3_rotation 0 1 0 true []).2.2
      [⟨"XX", "AAA", "", "BHN", 1, 0, [5]⟩, ⟨"XX", "AAA", "", "BHE", 1, 0, [7]⟩]
      [] 0 1 ⟨"XX", "AAA", "", "BHN", 1, 0, [5]⟩ ⟨"XX", "AAA", "", "BHE", 1, 0, [7]⟩
      rfl rfl (by simp [pairPred, pyEndsWith, pyLower]; decide)]
    rfl

/-- A pair whose first trace ends neither in n (case-insensitive) nor in 1
never matches. -/
theorem pairPred_false_of_channelA (a b : Trace)
    (h1 : pyEndsWith (pyLower a.channel) "n" = false)
    (h2 : pyEndsWith a.channel "1" = false) :
    pairPred a b = false := by
  simp [pairPred, h1, h2]

/-- A pair whose second trace ends neither in e (case-insensitive) nor in 2
never matches. -/
theorem pairPred_false_of_channelB (a b : Trace)
    (h1 : pyEndsWith (pyLower b.channel) "e" = false)
    (h2 : pyEndsWith b.channel "2" = false) :
    pairPred a b = false := by
  simp [pairPred, h1, h2]

/-- Each step of the rotation loop appends its index pair to the ghost log or
leaves the log alone. -/
theorem rotStep_log (cphi sphi : ℚ) (st : List Trace × List (ℕ × ℕ)) (p : ℕ × ℕ) :
    (rotStep cphi sphi st p).2 = st.2 ∨ (rotStep cphi sphi st p).2 = st.2 ++ [p] := by
  unfold rotStep
  rcases hA : st.1[p.1]? with _ | a
  · left
    rfl
  rcases hB : st.1[p.2]? with _ | b
  · left
    rfl
  by_cases hp : pairPred a b = true
  · right
    dsimp only
    rw [if_pos hp]
  · left
    dsimp only
    rw [if_neg hp]

/-- Over any pair schedule, the rotation log grows by a sublist of the visited
pairs. -/
theorem rotFold_log_sublist (cphi sphi : ℚ) :
    ∀ (l : List (ℕ × ℕ)) (st : List Trace × List (ℕ × ℕ)),
      ∃ l', (l.foldl (rotStep cphi sphi) st).2 = st.2 ++ l' ∧ List.Sublist l' l := by
  intro l
  induction l with
  | nil => exact fun st => ⟨[], by simp, List.Sublist.refl _⟩
  | cons p l ih =>
    intro st
    obtain ⟨l', h1, h2⟩ := ih (rotStep cphi sphi st p)
    rcases rotStep_log cphi sphi st p with h | h
    · refine ⟨l', ?_, h2.cons p⟩
      rw [List.foldl_cons, h1, h]
    · refine ⟨p :: l', ?_, h2.cons₂ p⟩
      rw [List.foldl_cons, h1, h, List.append_assoc]
      rfl

/-- The schedule of visited index pairs has no duplicates. -/
theorem pairList_nodup (n : ℕ) : (pairList n).Nodup := by
  unfold pairList
  rw [List.nodup_flatMap]
  constructor
  · intro i _
    exact (List.nodup_range n).map (Prod.mk.inj_left i)
  · refine List.Pairwise.imp ?_ (List.nodup_range n)
    intro i j hij x hxi hxj
    simp only [List.mem_map, List.mem_range] at hxi hxj
    obtain ⟨k1, _, rfl⟩ := hxi
    obtain ⟨k2, _, hk⟩ := hxj
    exact hij (congrArg Prod.fst hk).symm

/-- A duplicate-free list counts every element at most once. -/
theorem count_le_one_of_nodup {α : Type} [BEq α] [LawfulBEq α] {l : List α}
    (h : l.Nodup) (p : α) : l.count p ≤ 1 := by
  induction l with
  | nil => simp
  | cons a l ih =>
    rw [List.nodup_cons] at h
    rw [List.count_cons]
    by_cases hap : p = a
    · subst hap
      rw [List.count_eq_zero.2 h.1]
      split <;> omega
    · rw [if_neg (by simp only [beq_iff_eq]; exact fun h => hap h.symm)]
      rw [Nat.add_zero]
      exact ih h.2

/-- No ordered index pair is rotated more than once within one rotation pass. -/
theorem rotateAllLog_count_le_one (cphi sphi : ℚ) (trs : List Trace) (p : ℕ × ℕ) :
    (rotateAllLog cphi sphi trs).2.count p ≤ 1 := by
  obtain ⟨l', h1, h2⟩ := rotFold_log_sublist cphi sphi (pairList trs.length) (trs, [])
  unfold rotateAllLog
  rw [h1, List.nil_append]
  exact count_le_one_of_nodup ((pairList_nodup trs.length).sublist h2) p

/-- C4, counterexample: in the batch `[BHN, BHE, LHE]` (same station, equal
sampling, start and length) the N trace is rotated twice — once with each
E-suffixed partner — so it is not true that every trace participates in at
most one rotation. -/
theorem claim_C4_counterexample :
    ¬ ∀ (cphi sphi : ℚ) (trs : List Trace) (k : ℕ),
        participation (rotateAllLog cphi sphi trs).2 k ≤ 1 := by
  intro hall
  have h := hall 0 1
    [⟨"XX", "AAA", "", "BHN", 1, 0, [1]⟩,
     ⟨"XX", "AAA", "", "BHE", 1, 0, [2]⟩,
     ⟨"XX", "AAA", "", "LHE", 1, 0, [3]⟩] 0
  have hlog :
      (rotateAllLog 0 1
        [⟨"XX", "AAA", "", "BHN", 1, 0, [1]⟩,
         ⟨"XX", "AAA", "", "BHE", 1, 0, [2]⟩,
         ⟨"XX", "AAA", "", "LHE", 1, 0, [3]⟩]).2 = [(0, 1), (0, 2)] := by
    have hp00 : pairPred ⟨"XX", "AAA", "", "BHN", 1, 0, [1]⟩
        ⟨"XX", "AAA", "", "BHN", 1, 0, [1]⟩ = false := by
      apply pairPred_false_of_channelB <;> decide
    have hp01 : pairPred ⟨"XX", "AAA", "", "BHN", 1, 0, [1]⟩
        ⟨"XX", "AAA", "", "BHE", 1, 0, [2]⟩ = true := by
      simp [pairPred, pyEndsWith, pyLower]
      decide
    have hpA1E2 : pairPred
        (rotatedA 0 1 ⟨"XX", "AAA", "", "BHN", 1, 0, [1]⟩ ⟨"XX", "AAA", "", "BHE", 1, 0, [2]⟩)
        ⟨"XX", "AAA", "", "LHE", 1, 0, [3]⟩ = true := by
      simp [pairPred, rotatedA, pyEndsWith, pyLower]
      decide
    have hB1 : ∀ b, pairPred
        (rotatedB 0 1 ⟨"XX", "AAA", "", "BHN", 1, 0, [1]⟩ ⟨"XX", "AAA", "", "BHE", 1, 0, [2]⟩)
        b = false := fun b =>
      pairPred_false_of_channelA _ b (by decide) (by decide)
    have hC2 : ∀ b, pairPred
        (rotatedB 0 1
          (rotatedA 0 1 ⟨"XX", "AAA", "", "BHN", 1, 0, [1]⟩ ⟨"XX", "AAA", "", "BHE", 1, 0, [2]⟩)
          ⟨"XX", "AAA", "", "LHE", 1, 0, [3]⟩) b = false := fun b =>
      pairPred_false_of_channelA _ b (by decide) (by decide)
    have hpl : pairList 3 =
        [(0,0),(0,1),(0,2),(1,0),(1,1),(1,2),(2,0),(2,1),(2,2)] := by decide
    simp only [rotateAllLog, List.length_cons, List.length_nil]
    rw [show (0 : ℕ) + 1 + 1 + 1 = 3 from rfl, hpl]
    simp only [List.foldl_cons, List.foldl_nil]
    simp [rotStep, hp00, hp01, hpA1E2, hB1, hC2]
  rw [hlog] at h
  exact absurd h (by decide)

/-- C4, amended: within one rotation pass each ordered index pair is rotated
at most once (the pair schedule visits every ordered pair exactly once), but a
trace already rotated as a member of one matched pair can be rotated again as
a member of a later pair — the loop keeps no exclusivity marking, as the batch
`[BHN, BHE, LHE]` shows. -/
theorem claim_C4_pair_once_trace_reuse :
    (∀ (cphi sphi : ℚ) (trs : List Trace) (p : ℕ × ℕ),
        (rotateAllLog cphi sphi trs).2.count p ≤ 1)
    ∧ (∃ (cphi sphi : ℚ) (trs : List Trace) (k : ℕ),
        2 ≤ participation (rotateAllLog cphi sphi trs).2 k) := by
  constructor
  · exact rotateAllLog_count_le_one
  · refine ⟨0, 1,
      [⟨"XX", "AAA", "", "BHN", 1, 0, [1]⟩,
       ⟨"XX", "AAA", "", "BHE", 1, 0, [2]⟩,
       ⟨"XX", "AAA", "", "LHE", 1, 0, [3]⟩], 0, ?_⟩
    have hp00 : pairPred ⟨"XX", "AAA", "", "BHN", 1, 0, [1]⟩
        ⟨"XX", "AAA", "", "BHN", 1, 0, [1]⟩ = false := by
      apply pairPred_false_of_channelB <;> decide
    have hp01 : pairPred ⟨"XX", "AAA", "", "BHN", 1, 0, [1]⟩
        ⟨"XX", "AAA", "", "BHE", 1, 0, [2]⟩ = true := by
      simp [pairPred, pyEndsWith, pyLower]
      decide
    have hpA1E2 : pairPred
        (rotatedA 0 1 ⟨"XX", "AAA", "", "BHN", 1, 0, [1]⟩ ⟨"XX", "AAA", "", "BHE", 1, 0, [2]⟩)
        ⟨"XX", "AAA", "", "LHE", 1, 0, [3]⟩ = true := by
      simp [pairPred, rotatedA, pyEndsWith, pyLower]
      decide
    have hB1 : ∀ b, pairPred
        (rotatedB 0 1 ⟨"XX", "AAA", "", "BHN", 1, 0, [1]⟩ ⟨"XX", "AAA", "", "BHE", 1, 0, [2]⟩)
        b = false := fun b =>
      pairPred_false_of_channelA _ b (by decide) (by decide)
    have hC2 : ∀ b, pairPred
        (rotatedB 0 1
          (rotatedA 0 1 ⟨"XX", "AAA", "", "BHN", 1, 0, [1]⟩ ⟨"XX", "AAA", "", "BHE", 1, 0, [2]⟩)
          ⟨"XX", "AAA", "", "LHE", 1, 0, [3]⟩) b = false := fun b =>
      pairPred_false_of_channelA _ b (by decide) (by decide)
    have hpl : pairList 3 =
        [(0,0),(0,1),(0,2),(1,0),(1,1),(1,2),(2,0),(2,1),(2,2)] := by decide
    simp only [rotateAllLog, List.length_cons, List.length_nil]
    rw [show (0 : ℕ) + 1 + 1 + 1 = 3 from rfl, hpl]
    simp only [List.foldl_cons, List.foldl_nil]
    simp [rotStep, hp00, hp01, hpA1E2, hB1, hC2, participation]

/-- C8: when the save contract reports a failure, the call surfaces a fatal
failure carrying the original message verbatim, invokes the save contract
exactly once (no retry), and halts further processing — the station dump is
not reached even when requested. -/
theorem claim_C8_save_failure (F : FilterFns) (cphi sphi : ℚ) (viewer : ViewerContext)
    (format : Format) (af ss : Bool)
    (save : List Trace → String → Format → Bool → Except String Unit)
    (fn : String) (batches : List (List Trace)) (ts0 : List Trace) (e : String)
    (hws : workingSet F format viewer af batches = some ts0)
    (hsave : save (rotStage cphi sphi viewer.rotate af ts0) fn format true =
      Except.error e) :
    callModel F cphi sphi viewer format af ss save fn batches =
      (Except.error e, ⟨[rotStage cphi sphi viewer.rotate af ts0], false⟩) := by
  unfold callModel
  rw [hws]
  dsimp only
  rw [hsave]

/-- Concrete check of C8: a failing save aborts the call with the original
message after a single save attempt, skipping the requested station dump. -/
theorem claim_C8_witness :
    callModel ⟨fun _ _ _ ys => ys, fun _ _ _ ys => ys, fun _ _ _ ys => ys⟩ 0 0
        ⟨none, none, 0⟩ Format.text false true (fun _ _ _ _ => Except.error "disk full")
        "tmpl" [[⟨"XX", "AAA", "", "BHZ", 1, 0, [1]⟩]] =
      (Except.error "disk full",
        ⟨[rotStage 0 0 (ViewerContext.mk none none 0).rotate false
            [⟨"XX", "AAA", "", "BHZ", 1, 0, [1]⟩]], false⟩) :=
  claim_C8_save_failure _ 0 0 ⟨none, none, 0⟩ Format.text false true _ "tmpl"
    [[⟨"XX", "AAA", "", "BHZ", 1, 0, [1]⟩]] [⟨"XX", "AAA", "", "BHZ", 1, 0, [1]⟩]
    "disk full" rfl rfl

/-- A nonempty batch sequence always leaves the working-set name bound. -/
theorem workingSet_isSome (F : FilterFns) (format : Format) (viewer : ViewerContext)
    (af : Bool) :
    ∀ (batches : List (List Trace)), batches ≠ [] →
      ∃ ts, workingSet F format viewer af batches = some ts := by
  have aux : ∀ (bs : List (List Trace)) (init : Option (List Trace)), bs ≠ [] →
      ∃ ts, bs.foldl
        (fun _ trs => some (trs.map (conditionTrace F format viewer af))) init = some ts := by
    intro bs
    induction bs with
    | nil => exact fun _ h => absurd rfl h
    | cons b bs ih =>
      intro init _
      by_cases hb : bs = []
      · subst hb
        exact ⟨b.map (conditionTrace F format viewer af), rfl⟩
      · obtain ⟨ts, hts⟩ := ih (some (b.map (conditionTrace F format viewer af))) hb
        exact ⟨ts, hts⟩
  exact fun batches h => aux batches none h

/-- C10: when the chopper yields zero batches, the call dies with the
unbound-variable error on `traces_save` and the save contract is never
invoked; with at least one batch the save contract is invoked exactly once. -/
theorem claim_C10_zero_batches (F : FilterFns) (cphi sphi : ℚ) (viewer : ViewerContext)
    (format : Format) (af ss : Bool)
    (save : List Trace → String → Format → Bool → Except String Unit) (fn : String) :
    callModel F cphi sphi viewer format af ss save fn [] =
        (Except.error unboundTracesSaveError, ⟨[], false⟩)
      ∧ ∀ batches : List (List Trace), batches ≠ [] →
          ((callModel F cphi sphi viewer format af ss save fn batches).2.saveArgs.length = 1) := by
  constructor
  · rfl
  · intro batches hne
    obtain ⟨ts, hts⟩ := workingSet_isSome F format viewer af batches hne
    unfold callModel
    rw [hts]
    dsimp only
    cases save (rotStage cphi sphi viewer.rotate af ts) fn format true <;> rfl

/-- Concrete check of C10: zero batches yield the unbound-name failure with no
save attempt; one batch yields exactly one save attempt. -/
theorem claim_C10_witness :
    callModel ⟨fun _ _ _ ys => ys, fun _ _ _ ys => ys, fun _ _ _ ys => ys⟩ 0 0
        ⟨none, none, 0⟩ Format.text false false (fun _ _ _ _ => Except.ok ())
        "tmpl" [] = (Except.error unboundTracesSaveError, ⟨[], false⟩)
      ∧ (callModel ⟨fun _ _ _ ys => ys, fun _ _ _ ys => ys, fun _ _ _ ys => ys⟩ 0 0
          ⟨none, none, 0⟩ Format.text false false (fun _ _ _ _ => Except.ok ())
          "tmpl" [[⟨"XX", "AAA", "", "BHZ", 1, 0, [1]⟩]]).2.saveArgs.length = 1 :=
  ⟨(claim_C10_zero_batches _ 0 0 ⟨none, none, 0⟩ Format.text false false _ "tmpl").1,
    (claim_C10_zero_batches _ 0 0 ⟨none, none, 0⟩ Format.text false false _ "tmpl").2
      [[⟨"XX", "AAA", "", "BHZ", 1, 0, [1]⟩]] (by simp)⟩

/-- C1 (failing input): two batches of one trace each, no filtering, zero
rotation angle. The rotation pass and the save sit outside the batch loop in
the source, so the call invokes the save contract exactly once, with only the
second batch's working set; the first batch's traces are never passed to the
save contract, contradicting once-per-batch conditioning, rotation and save. -/
theorem claim_C1_save_outside_loop :
    callModel ⟨fun _ _ _ ys => ys, fun _ _ _ ys => ys, fun _ _ _ ys => ys⟩ 0 0
        ⟨none, none, 0⟩ Format.text false false (fun _ _ _ _ => Except.ok ())
        "tmpl"
        [[⟨"NET1", "STA1", "", "BHZ", 1, 0, [1]⟩],
         [⟨"NET2", "STA2", "", "BHZ", 1, 0, [2]⟩]] =
      (Except.ok (), ⟨[[⟨"NET2", "STA2", "", "BHZ", 1, 0, [2]⟩]], false⟩) := by
  unfold callModel workingSet
  simp only [List.foldl_cons, List.foldl_nil]
  rw [show List.map (conditionTrace ⟨fun _ _ _ ys => ys, fun _ _ _ ys => ys, fun _ _ _ ys => ys⟩
      Format.text ⟨none, none, 0⟩ false) [⟨"NET2", "STA2", "", "BHZ", 1, 0, [2]⟩]
    = [⟨"NET2", "STA2", "", "BHZ", 1, 0, [2]⟩] from rfl]
  rw [show rotStage 0 0 (ViewerContext.mk none none 0).rotate false
      [⟨"NET2", "STA2", "", "BHZ", 1, 0, [2]⟩] = [⟨"NET2", "STA2", "", "BHZ", 1, 0, [2]⟩] by
    unfold rotStage
    rw [if_neg]
    exact fun hc => Bool.false_ne_true hc.2]

end ExportWaveforms
